import Mathlib

/-!
Verification of the observation-ingestion and duplicate-suppression pipeline
of `main.py` (weather-station logger).  The Python source is shallowly
embedded: each Python function becomes a Lean definition of the same name,
`datetime` values become explicit calendar records, JSON values become an
inductive type with Python truthiness, and every fallible step returns an
`Option` or an explicit outcome constructor.
-/

namespace Weather

/-! ## Calendar core (model of Python `datetime` date/time arithmetic)

Python `datetime` objects always carry valid proleptic-Gregorian fields with
`1 <= year <= 9999`.  A `Tm` is the field record of such a value (to second
precision; the pipeline's fixed write format has no sub-second part). -/

structure Tm where
  year : Nat
  month : Nat
  day : Nat
  hour : Nat
  minute : Nat
  second : Nat
deriving DecidableEq, Repr

def isLeap (y : Nat) : Bool :=
  (y % 4 == 0 && y % 100 != 0) || y % 400 == 0

def daysInMonth (y m : Nat) : Nat :=
  if m = 2 then (if isLeap y then 29 else 28)
  else if m = 4 ∨ m = 6 ∨ m = 9 ∨ m = 11 then 30
  else 31

theorem daysInMonth_le (y m : Nat) : daysInMonth y m ≤ 31 := by
  unfold daysInMonth
  split
  · split <;> omega
  · split <;> omega

/-- Validity of datetime fields, as enforced by the `datetime` constructor
(`MINYEAR = 1`, `MAXYEAR = 9999`). -/
def validTm (t : Tm) : Bool :=
  1 ≤ t.year && t.year ≤ 9999 && 1 ≤ t.month && t.month ≤ 12 &&
  1 ≤ t.day && t.day ≤ daysInMonth t.year t.month &&
  t.hour ≤ 23 && t.minute ≤ 59 && t.second ≤ 59

/-- Days since 0000-03-01 of a proleptic-Gregorian date (standard
era-shifted civil-calendar formula; agrees with `datetime.toordinal` up to
the constant epoch shift).  Intended for `y ≥ 1`. -/
def civilDays (y m d : Nat) : Nat :=
  let yAdj := if m ≤ 2 then y - 1 else y
  let mp := if m ≤ 2 then m + 9 else m - 3
  yAdj * 365 + yAdj / 4 - yAdj / 100 + yAdj / 400 + (153 * mp + 2) / 5 + d - 1

/-- Inverse of `civilDays`: the (year, month, day) whose `civilDays` is `z`.
Year-of-era extraction by sequential divmod (as in CPython's ordinal-to-date
conversion), month extraction by the shifted-month formula. -/
def civilOfDays (z : Nat) : Nat × Nat × Nat :=
  let era := z / 146097
  let doe := z % 146097
  let n100 := doe / 36524
  let n4 := doe % 36524 / 1461
  let n1 := doe % 36524 % 1461 / 365
  let yoe := if n100 = 4 then 399
    else if n1 = 4 then 100 * n100 + 4 * n4 + 3
    else 100 * n100 + 4 * n4 + n1
  let doy := if n100 = 4 ∨ n1 = 4 then 365 else doe % 36524 % 1461 % 365
  let mp := (5 * doy + 2) / 153
  let d := doy - (153 * mp + 2) / 5 + 1
  let m := if mp < 10 then mp + 3 else mp - 9
  (if m ≤ 2 then yoe + era * 400 + 1 else yoe + era * 400, m, d)

/-- Local seconds-count of a field record (seconds since 0000-03-01 00:00:00
in the same clock). -/
def tmToSecs (t : Tm) : Nat :=
  civilDays t.year t.month t.day * 86400 + t.hour * 3600 + t.minute * 60 + t.second

/-- Field record of a local seconds-count. -/
def secsToTm (x : Nat) : Tm :=
  let c := civilOfDays (x / 86400)
  ⟨c.1, c.2.1, c.2.2, x % 86400 / 3600, x % 86400 % 3600 / 60, x % 86400 % 60⟩

theorem civilDays_civilOfDays (z : Nat) :
    civilDays (civilOfDays z).1 (civilOfDays z).2.1 (civilOfDays z).2.2 = z := by
  simp only [civilOfDays]
  by_cases hA : z % 146097 / 36524 = 4
  · have hdoe : z % 146097 = 146096 := by omega
    norm_num [hdoe, civilDays]
    omega
  · by_cases hB : z % 146097 % 36524 % 1461 / 365 = 4
    · simp only [if_neg hA, if_pos hB,
        if_pos (Or.inr hB : z % 146097 / 36524 = 4 ∨
          z % 146097 % 36524 % 1461 / 365 = 4)]
      norm_num [civilDays]
      set E := z / 146097 with hE
      set N100 := z % 146097 / 36524 with hN100
      set N4 := z % 146097 % 36524 / 1461 with hN4
      have hb24 : N4 ≤ 24 := by omega
      have hd4 : (100 * N100 + 4 * N4 + 3 + E * 400) / 4 =
          25 * N100 + N4 + E * 100 := by omega
      have hd100 : (100 * N100 + 4 * N4 + 3 + E * 400) / 100 = N100 + E * 4 := by
        omega
      have hd400 : (100 * N100 + 4 * N4 + 3 + E * 400) / 400 = E := by omega
      rw [hd4, hd100, hd400]
      omega
    · have hcorner : ¬ (z % 146097 / 36524 = 4 ∨
          z % 146097 % 36524 % 1461 / 365 = 4) := by tauto
      simp only [if_neg hA, if_neg hB, if_neg hcorner]
      by_cases hmp : (5 * (z % 146097 % 36524 % 1461 % 365) + 2) / 153 < 10
      · simp only [if_pos hmp]
        have hm : ¬ ((5 * (z % 146097 % 36524 % 1461 % 365) + 2) / 153 + 3 ≤ 2) := by
          omega
        simp only [if_neg hm, civilDays, Nat.add_sub_cancel]
        set E := z / 146097 with hE
        set N100 := z % 146097 / 36524 with hN100
        set N4 := z % 146097 % 36524 / 1461 with hN4
        set N1 := z % 146097 % 36524 % 1461 / 365 with hN1
        set R1 := z % 146097 % 36524 % 1461 % 365 with hR1
        set MP := (5 * R1 + 2) / 153 with hMP
        have hn1 : N1 ≤ 3 := by omega
        have hd4 : (100 * N100 + 4 * N4 + N1 + E * 400) / 4 =
            25 * N100 + N4 + E * 100 := by omega
        have hd100 : (100 * N100 + 4 * N4 + N1 + E * 400) / 100 = N100 + E * 4 := by
          omega
        have hd400 : (100 * N100 + 4 * N4 + N1 + E * 400) / 400 = E := by omega
        rw [hd4, hd100, hd400]
        have hmp2 : (153 * MP + 2) / 5 ≤ R1 := by omega
        omega
      · simp only [if_neg hmp]
        have hm : (5 * (z % 146097 % 36524 % 1461 % 365) + 2) / 153 - 9 ≤ 2 := by omega
        simp only [if_pos hm, civilDays, Nat.add_sub_cancel]
        set E := z / 146097 with hE
        set N100 := z % 146097 / 36524 with hN100
        set N4 := z % 146097 % 36524 / 1461 with hN4
        set N1 := z % 146097 % 36524 % 1461 / 365 with hN1
        set R1 := z % 146097 % 36524 % 1461 % 365 with hR1
        set MP := (5 * R1 + 2) / 153 with hMP
        rw [Nat.sub_add_cancel (by omega : 9 ≤ MP)]
        have hn1 : N1 ≤ 3 := by omega
        have hd4 : (100 * N100 + 4 * N4 + N1 + E * 400) / 4 =
            25 * N100 + N4 + E * 100 := by omega
        have hd100 : (100 * N100 + 4 * N4 + N1 + E * 400) / 100 = N100 + E * 4 := by
          omega
        have hd400 : (100 * N100 + 4 * N4 + N1 + E * 400) / 400 = E := by omega
        rw [hd4, hd100, hd400]
        have hmp2 : (153 * MP + 2) / 5 ≤ R1 := by omega
        omega

theorem tmToSecs_secsToTm (x : Nat) : tmToSecs (secsToTm x) = x := by
  simp only [secsToTm, tmToSecs, civilDays_civilOfDays]
  omega

/-- Reading the divmod chain of `civilOfDays` off an explicit decomposition. -/
theorem chainDecomp (z q c g t w : Nat) (hc : c ≤ 3) (hg : g ≤ 24) (ht : t ≤ 3)
    (hw : w ≤ 364) (hz : z = 146097 * q + 36524 * c + 1461 * g + 365 * t + w) :
    z / 146097 = q ∧ z % 146097 / 36524 = c ∧ z % 146097 % 36524 / 1461 = g ∧
    z % 146097 % 36524 % 1461 / 365 = t ∧ z % 146097 % 36524 % 1461 % 365 = w := by
  have h2 : z % 146097 = 36524 * c + 1461 * g + 365 * t + w := by omega
  have h4 : z % 146097 % 36524 = 1461 * g + 365 * t + w := by rw [h2]; omega
  have h6 : z % 146097 % 36524 % 1461 = 365 * t + w := by rw [h4]; omega
  refine ⟨by omega, ?_, ?_, ?_, ?_⟩
  · rw [h2]; omega
  · rw [h4]; omega
  · rw [h6]; omega
  · rw [h6]; omega

/-- Divmod chain at the last day of a leap year that is not a multiple of 400. -/
theorem chainLeapDay (z q c g : Nat) (hc : c ≤ 3) (hg : g ≤ 23)
    (hz : z = 146097 * q + 36524 * c + 1461 * g + 1460) :
    z / 146097 = q ∧ z % 146097 / 36524 = c ∧ z % 146097 % 36524 / 1461 = g ∧
    z % 146097 % 36524 % 1461 / 365 = 4 := by
  have h2 : z % 146097 = 36524 * c + 1461 * g + 1460 := by omega
  have h4 : z % 146097 % 36524 = 1461 * g + 1460 := by rw [h2]; omega
  have h6 : z % 146097 % 36524 % 1461 = 1460 := by rw [h4]; omega
  exact ⟨by omega, by rw [h2]; omega, by rw [h4]; omega, by rw [h6]⟩

/-- Divmod chain at the last day of a 400-multiple year. -/
theorem chain400 (z q : Nat) (hz : z = 146097 * q + 146096) :
    z / 146097 = q ∧ z % 146097 / 36524 = 4 := by
  omega

/-- Inversion for the months March through December (`mp = 0, …, 9` is the
shifted month index, `dd` the zero-based day within the month). -/
theorem civilOfDays_addMonth (y mp dd : Nat) (hy1 : 1 ≤ y) (hy2 : y ≤ 9999)
    (hmp : mp ≤ 9)
    (hdd : dd + (153 * mp + 2) / 5 < (153 * (mp + 1) + 2) / 5) :
    civilOfDays (civilDays y (mp + 3) (dd + 1)) = (y, mp + 3, dd + 1) := by
  obtain ⟨q, r, hqr, hr⟩ : ∃ q r, y = 400 * q + r ∧ r < 400 :=
    ⟨y / 400, y % 400, by omega, by omega⟩
  obtain ⟨c, s, hcs, hs⟩ : ∃ c s, r = 100 * c + s ∧ s < 100 :=
    ⟨r / 100, r % 100, by omega, by omega⟩
  obtain ⟨g, t, hgt, ht⟩ : ∃ g t, s = 4 * g + t ∧ t < 4 :=
    ⟨s / 4, s % 4, by omega, by omega⟩
  obtain ⟨z, hzdef⟩ : ∃ z, civilDays y (mp + 3) (dd + 1) = z := ⟨_, rfl⟩
  rw [hzdef]
  simp only [civilDays, if_neg (show ¬ (mp + 3 ≤ 2) by omega),
    Nat.add_sub_cancel] at hzdef
  obtain ⟨cm, hcm⟩ : ∃ cm, (153 * mp + 2) / 5 = cm := ⟨_, rfl⟩
  have hw : cm + dd ≤ 364 := by omega
  have hlin : z = 146097 * q + 36524 * c + 1461 * g + 365 * t + (cm + dd) := by
    omega
  obtain ⟨e1, e2, e3, e4, e5⟩ :=
    chainDecomp z q c g t (cm + dd) (by omega) (by omega) (by omega) hw hlin
  simp only [civilOfDays, e1, e2, e3, e4, e5]
  have hc4 : ¬ (c = 4) := by omega
  have ht4 : ¬ (t = 4) := by omega
  simp only [if_neg hc4, if_neg ht4,
    if_neg (show ¬ (c = 4 ∨ t = 4) by tauto)]
  have hmpEq : (5 * (cm + dd) + 2) / 153 = mp := by omega
  rw [hmpEq]
  simp only [if_pos (show mp < 10 by omega),
    if_neg (show ¬ (mp + 3 ≤ 2) by omega)]
  norm_num [Prod.mk.injEq] <;> omega

/-- Inversion for January. -/
theorem civilOfDays_jan (y dd : Nat) (hy1 : 1 ≤ y) (hy2 : y ≤ 9999)
    (hdd : dd ≤ 30) :
    civilOfDays (civilDays y 1 (dd + 1)) = (y, 1, dd + 1) := by
  obtain ⟨Y, rfl⟩ : ∃ Y, y = Y + 1 := ⟨y - 1, by omega⟩
  obtain ⟨q, r, hqr, hr⟩ : ∃ q r, Y = 400 * q + r ∧ r < 400 :=
    ⟨Y / 400, Y % 400, by omega, by omega⟩
  obtain ⟨c, s, hcs, hs⟩ : ∃ c s, r = 100 * c + s ∧ s < 100 :=
    ⟨r / 100, r % 100, by omega, by omega⟩
  obtain ⟨g, t, hgt, ht⟩ : ∃ g t, s = 4 * g + t ∧ t < 4 :=
    ⟨s / 4, s % 4, by omega, by omega⟩
  norm_num [civilDays]
  obtain ⟨z, hzdef⟩ : ∃ z,
      Y * 365 + Y / 4 - Y / 100 + Y / 400 + 306 + dd = z := ⟨_, rfl⟩
  rw [hzdef]
  have hlin : z = 146097 * q + 36524 * c + 1461 * g + 365 * t + (306 + dd) := by
    omega
  obtain ⟨e1, e2, e3, e4, e5⟩ :=
    chainDecomp z q c g t (306 + dd) (by omega) (by omega) (by omega) (by omega)
      hlin
  simp only [civilOfDays, e1, e2, e3, e4, e5]
  have hc4 : ¬ (c = 4) := by omega
  have ht4 : ¬ (t = 4) := by omega
  simp only [if_neg hc4, if_neg ht4,
    if_neg (show ¬ (c = 4 ∨ t = 4) by tauto)]
  have hmpEq : (5 * (306 + dd) + 2) / 153 = 10 := by omega
  rw [hmpEq]
  norm_num [Prod.mk.injEq] <;> omega

/-- Inversion for February 1 through 28. -/
theorem civilOfDays_febSmall (y dd : Nat) (hy1 : 1 ≤ y) (hy2 : y ≤ 9999)
    (hdd : dd ≤ 27) :
    civilOfDays (civilDays y 2 (dd + 1)) = (y, 2, dd + 1) := by
  obtain ⟨Y, rfl⟩ : ∃ Y, y = Y + 1 := ⟨y - 1, by omega⟩
  obtain ⟨q, r, hqr, hr⟩ : ∃ q r, Y = 400 * q + r ∧ r < 400 :=
    ⟨Y / 400, Y % 400, by omega, by omega⟩
  obtain ⟨c, s, hcs, hs⟩ : ∃ c s, r = 100 * c + s ∧ s < 100 :=
    ⟨r / 100, r % 100, by omega, by omega⟩
  obtain ⟨g, t, hgt, ht⟩ : ∃ g t, s = 4 * g + t ∧ t < 4 :=
    ⟨s / 4, s % 4, by omega, by omega⟩
  norm_num [civilDays]
  obtain ⟨z, hzdef⟩ : ∃ z,
      Y * 365 + Y / 4 - Y / 100 + Y / 400 + 337 + dd = z := ⟨_, rfl⟩
  rw [hzdef]
  have hlin : z = 146097 * q + 36524 * c + 1461 * g + 365 * t + (337 + dd) := by
    omega
  obtain ⟨e1, e2, e3, e4, e5⟩ :=
    chainDecomp z q c g t (337 + dd) (by omega) (by omega) (by omega) (by omega)
      hlin
  simp only [civilOfDays, e1, e2, e3, e4, e5]
  have hc4 : ¬ (c = 4) := by omega
  have ht4 : ¬ (t = 4) := by omega
  simp only [if_neg hc4, if_neg ht4,
    if_neg (show ¬ (c = 4 ∨ t = 4) by tauto)]
  have hmpEq : (5 * (337 + dd) + 2) / 153 = 11 := by omega
  rw [hmpEq]
  norm_num [Prod.mk.injEq] <;> omega

/-- Inversion for February 29 of a leap year. -/
theorem civilOfDays_feb29 (y : Nat) (hy1 : 1 ≤ y) (hy2 : y ≤ 9999)
    (hleap : isLeap y = true) :
    civilOfDays (civilDays y 2 29) = (y, 2, 29) := by
  obtain ⟨Y, rfl⟩ : ∃ Y, y = Y + 1 := ⟨y - 1, by omega⟩
  obtain ⟨q, r, hqr, hr⟩ : ∃ q r, Y = 400 * q + r ∧ r < 400 :=
    ⟨Y / 400, Y % 400, by omega, by omega⟩
  obtain ⟨c, s, hcs, hs⟩ : ∃ c s, r = 100 * c + s ∧ s < 100 :=
    ⟨r / 100, r % 100, by omega, by omega⟩
  obtain ⟨g, t, hgt, ht⟩ : ∃ g t, s = 4 * g + t ∧ t < 4 :=
    ⟨s / 4, s % 4, by omega, by omega⟩
  simp only [isLeap, Bool.or_eq_true, Bool.and_eq_true, beq_iff_eq,
    bne_iff_ne, ne_eq] at hleap
  norm_num [civilDays]
  obtain ⟨z, hzdef⟩ : ∃ z,
      Y * 365 + Y / 4 - Y / 100 + Y / 400 + 365 = z := ⟨_, rfl⟩
  rw [hzdef]
  have hc3 : c ≤ 3 := by omega
  have hg24 : g ≤ 24 := by omega
  rcases hleap with ⟨h4b, h100b⟩ | h400b
  · have ht3 : t = 3 := by omega
    have hg23 : g ≤ 23 := by omega
    clear h4b h100b
    have hY4 : Y / 4 = 100 * q + 25 * c + g := by omega
    have hY100 : Y / 100 = 4 * q + c := by omega
    have hY400 : Y / 400 = q := by omega
    have hlin : z = 146097 * q + 36524 * c + 1461 * g + 1460 := by omega
    obtain ⟨e1, e2, e3, e4⟩ := chainLeapDay z q c g hc3 hg23 hlin
    have hc4 : ¬ (c = 4) := by omega
    norm_num [civilOfDays, e1, e2, e3, e4, hc4] <;> omega
  · have hr399 : r = 399 := by omega
    clear h400b
    have hlin : z = 146097 * q + 146096 := by omega
    obtain ⟨e1, e2⟩ := chain400 z q hlin
    norm_num [civilOfDays, e1, e2] <;> omega

/-- `civilOfDays` inverts `civilDays` on every valid proleptic-Gregorian date. -/
theorem civilOfDays_civilDays (y m d : Nat) (hy1 : 1 ≤ y) (hy2 : y ≤ 9999)
    (hm1 : 1 ≤ m) (hm2 : m ≤ 12) (hd1 : 1 ≤ d) (hd2 : d ≤ daysInMonth y m) :
    civilOfDays (civilDays y m d) = (y, m, d) := by
  interval_cases m
  · obtain ⟨dd, rfl⟩ : ∃ dd, d = dd + 1 := ⟨d - 1, by omega⟩
    norm_num [daysInMonth] at hd2
    exact civilOfDays_jan _ _ hy1 hy2 (by omega)
  · norm_num [daysInMonth] at hd2
    by_cases hL : isLeap y = true
    · rw [if_pos hL] at hd2
      rcases (by omega : d = 29 ∨ d ≤ 28) with rfl | hd28
      · exact civilOfDays_feb29 _ hy1 hy2 hL
      · obtain ⟨dd, rfl⟩ : ∃ dd, d = dd + 1 := ⟨d - 1, by omega⟩
        exact civilOfDays_febSmall _ _ hy1 hy2 (by omega)
    · rw [if_neg hL] at hd2
      obtain ⟨dd, rfl⟩ : ∃ dd, d = dd + 1 := ⟨d - 1, by omega⟩
      exact civilOfDays_febSmall _ _ hy1 hy2 (by omega)
  all_goals {
    norm_num [daysInMonth] at hd2
    obtain ⟨dd, rfl⟩ : ∃ dd, d = dd + 1 := ⟨d - 1, by omega⟩
    first
    | (have h := civilOfDays_addMonth y 0 dd hy1 hy2 (by omega) (by omega);
       norm_num at h ⊢; exact h)
    | (have h := civilOfDays_addMonth y 1 dd hy1 hy2 (by omega) (by omega);
       norm_num at h ⊢; exact h)
    | (have h := civilOfDays_addMonth y 2 dd hy1 hy2 (by omega) (by omega);
       norm_num at h ⊢; exact h)
    | (have h := civilOfDays_addMonth y 3 dd hy1 hy2 (by omega) (by omega);
       norm_num at h ⊢; exact h)
    | (have h := civilOfDays_addMonth y 4 dd hy1 hy2 (by omega) (by omega);
       norm_num at h ⊢; exact h)
    | (have h := civilOfDays_addMonth y 5 dd hy1 hy2 (by omega) (by omega);
       norm_num at h ⊢; exact h)
    | (have h := civilOfDays_addMonth y 6 dd hy1 hy2 (by omega) (by omega);
       norm_num at h ⊢; exact h)
    | (have h := civilOfDays_addMonth y 7 dd hy1 hy2 (by omega) (by omega);
       norm_num at h ⊢; exact h)
    | (have h := civilOfDays_addMonth y 8 dd hy1 hy2 (by omega) (by omega);
       norm_num at h ⊢; exact h)
    | (have h := civilOfDays_addMonth y 9 dd hy1 hy2 (by omega) (by omega);
       norm_num at h ⊢; exact h) }

/-- `secsToTm` inverts `tmToSecs` on every valid field record. -/
theorem secsToTm_tmToSecs (t : Tm) (h : validTm t = true) :
    secsToTm (tmToSecs t) = t := by
  obtain ⟨yy, mo, dy, hh, mi, ss⟩ := t
  simp only [validTm, Bool.and_eq_true, decide_eq_true_eq] at h
  obtain ⟨⟨⟨⟨⟨⟨⟨⟨hy1, hy2⟩, hm1⟩, hm2⟩, hd1⟩, hd2⟩, hhh⟩, hmin⟩, hss⟩ := h
  have hdiv1 : tmToSecs ⟨yy, mo, dy, hh, mi, ss⟩ / 86400 = civilDays yy mo dy := by
    simp only [tmToSecs]
    omega
  have hdiv2 : tmToSecs ⟨yy, mo, dy, hh, mi, ss⟩ % 86400 =
      hh * 3600 + mi * 60 + ss := by
    simp only [tmToSecs]
    omega
  have hciv := civilOfDays_civilDays yy mo dy hy1 hy2 hm1 hm2 hd1 hd2
  simp only [secsToTm, hdiv1, hdiv2, hciv]
  simp only [Tm.mk.injEq, true_and]
  omega

/-! ## Timestamp strings

`formatTm` models `obs_ts.strftime("%Y-%m-%d %H:%M:%S")` (all fields
zero-padded).  `fixedFormatParse` models `dateutil.parser.parse` restricted to
strings in exactly that fixed write format; `dateutil` accepts a superset of
strings, so the pipeline is parameterised over the parser and
`fixedFormatParse` instantiates it on the strings this program itself
produces.  Out-of-range fields make the underlying `datetime` constructor
raise and hence the parse fail, which the `validTm` check models. -/

def digitChar (n : Nat) : Char := Char.ofNat (48 + n)

def isDigit (c : Char) : Bool := 48 ≤ c.toNat && c.toNat ≤ 57

def digVal (c : Char) : Nat := c.toNat - 48

def formatTm (t : Tm) : String :=
  ⟨[digitChar (t.year / 1000 % 10), digitChar (t.year / 100 % 10),
    digitChar (t.year / 10 % 10), digitChar (t.year % 10), '-',
    digitChar (t.month / 10 % 10), digitChar (t.month % 10), '-',
    digitChar (t.day / 10 % 10), digitChar (t.day % 10), ' ',
    digitChar (t.hour / 10 % 10), digitChar (t.hour % 10), ':',
    digitChar (t.minute / 10 % 10), digitChar (t.minute % 10), ':',
    digitChar (t.second / 10 % 10), digitChar (t.second % 10)]⟩

def fixedFormatParse (s : String) : Option Tm :=
  match s.data with
  | [y1, y2, y3, y4, c1, m1, m2, c2, d1, d2, c3, h1, h2, c4, n1, n2, c5, p1, p2] =>
    if (c1 == '-') && (c2 == '-') && (c3 == ' ') && (c4 == ':') && (c5 == ':') &&
        isDigit y1 && isDigit y2 && isDigit y3 && isDigit y4 &&
        isDigit m1 && isDigit m2 && isDigit d1 && isDigit d2 &&
        isDigit h1 && isDigit h2 && isDigit n1 && isDigit n2 &&
        isDigit p1 && isDigit p2 then
      let t : Tm := ⟨1000 * digVal y1 + 100 * digVal y2 + 10 * digVal y3 + digVal y4,
                     10 * digVal m1 + digVal m2, 10 * digVal d1 + digVal d2,
                     10 * digVal h1 + digVal h2, 10 * digVal n1 + digVal n2,
                     10 * digVal p1 + digVal p2⟩
      if validTm t then some t else none
    else none
  | _ => none

theorem digitChar_props (x : Nat) :
    isDigit (digitChar (x % 10)) = true ∧ digVal (digitChar (x % 10)) = x % 10 := by
  have h0 : 0 ≤ x % 10 := Nat.zero_le _
  have h9 : x % 10 ≤ 9 := by omega
  set n := x % 10 with hn
  clear_value n
  interval_cases n <;> exact ⟨by decide, by decide⟩

/-- Re-parsing a formatted valid field record recovers it exactly. -/
theorem fixedFormatParse_formatTm (t : Tm) (h : validTm t = true) :
    fixedFormatParse (formatTm t) = some t := by
  obtain ⟨yy, mo, dy, hh, mi, ss⟩ := t
  simp only [validTm, Bool.and_eq_true, decide_eq_true_eq] at h
  simp only [formatTm, fixedFormatParse]
  simp only [(digitChar_props _).1, (digitChar_props _).2]
  norm_num
  have hdm := daysInMonth_le yy mo
  have e1 : 1000 * (yy / 1000 % 10) + 100 * (yy / 100 % 10) + 10 * (yy / 10 % 10)
      + yy % 10 = yy := by omega
  have e2 : 10 * (mo / 10 % 10) + mo % 10 = mo := by omega
  have e3 : 10 * (dy / 10 % 10) + dy % 10 = dy := by omega
  have e4 : 10 * (hh / 10 % 10) + hh % 10 = hh := by omega
  have e5 : 10 * (mi / 10 % 10) + mi % 10 = mi := by omega
  have e6 : 10 * (ss / 10 % 10) + ss % 10 = ss := by omega
  simp only [e1, e2, e3, e4, e5, e6, and_true]
  clear e1 e2 e3 e4 e5 e6
  simp only [validTm, Bool.and_eq_true, decide_eq_true_eq]
  omega

/-- Parsed timestamps always carry valid `datetime` fields. -/
theorem fixedFormatParse_valid (s : String) (t : Tm)
    (h : fixedFormatParse s = some t) : validTm t = true := by
  unfold fixedFormatParse at h
  split at h
  · dsimp only at h
    split at h
    · split at h
      · cases h
        assumption
      · cases h
    · cases h
  · cases h

/-! ## Python `str.strip` model -/

def stripChars (l : List Char) : List Char :=
  ((l.dropWhile Char.isWhitespace).reverse.dropWhile Char.isWhitespace).reverse

/-- Model of Python `str.strip()` (whitespace from both ends). -/
def pyStrip (s : String) : String := ⟨stripChars s.data⟩

/-- A string starting with a non-whitespace character never strips to "". -/
theorem pyStrip_cons_ne (c : Char) (rest : List Char)
    (hw : Char.isWhitespace c = false) : pyStrip ⟨c :: rest⟩ ≠ "" := by
  intro hcon
  simp only [pyStrip, stripChars, List.dropWhile, hw] at hcon
  rw [String.ext_iff] at hcon
  simp at hcon
  have hcc := hcon c (Or.inr rfl)
  rw [hw] at hcc
  exact Bool.false_ne_true hcc

/-- A formatted timestamp never strips to the empty string (its first
character is a digit). -/
theorem pyStrip_formatTm_ne (t : Tm) : pyStrip (formatTm t) ≠ "" := by
  have h9 : t.year / 1000 % 10 ≤ 9 := by omega
  unfold formatTm
  refine pyStrip_cons_ne _ _ ?_
  set n := t.year / 1000 % 10 with hn
  clear_value n
  interval_cases n <;> decide

/-! ## Timezone layer

`TZ = pytz.timezone("Africa/Johannesburg")` is SAST, a fixed UTC+2 zone with
no daylight saving; it is modelled as the constant offset 7200 seconds
(the pre-1903 LMT offset that `pytz` would attach to far-past dates is not
modelled).  An `Aware` value models a timezone-aware `datetime`: its local
field record together with its UTC offset in seconds. -/

def tzOffsetSec : Int := 7200

structure Aware where
  f : Tm
  off : Int
deriving DecidableEq, Repr

/-- The instant of an aware datetime, as local-epoch seconds minus the
offset (what Python's aware-datetime comparison and subtraction act on). -/
def instantOf (a : Aware) : Int := (tmToSecs a.f : Int) - a.off

/-- Model of `TZ.localize(dt)`: tag the naive fields with the configured
zone, without any shift of the fields. -/
def tzLocalize (t : Tm) : Aware := ⟨t, tzOffsetSec⟩

/-- Model of `dt.astimezone(TZ)` for an aware input: keep the instant,
recompute the fields in the configured zone. -/
def astimezoneTZ (a : Aware) : Aware :=
  ⟨secsToTm (instantOf a + tzOffsetSec).toNat, tzOffsetSec⟩

/-- `astimezone(TZ)` is the identity on values already tagged with the
configured zone and carrying valid fields (line 171 of the source
re-applies it to an already-localized value). -/
theorem astimezoneTZ_localized (t : Tm) (h : validTm t = true) :
    astimezoneTZ (tzLocalize t) = tzLocalize t := by
  simp only [astimezoneTZ, tzLocalize, instantOf, Aware.mk.injEq]
  have h1 : (tmToSecs t : Int) - tzOffsetSec + tzOffsetSec = (tmToSecs t : Int) := by
    ring
  rw [h1]
  simp only [Int.toNat_ofNat, secsToTm_tmToSecs t h]
  exact ⟨trivial, trivial⟩

/-! ## JSON values with Python truthiness

`r.json()` can return any JSON value; `JVal` models it (numbers as integers;
fractional values do not matter to any branch the pipeline takes on them).
Objects are association lists with the first binding of a key winning, as in
`dict.get` after JSON decoding. -/

inductive JVal where
  | null
  | bool (b : Bool)
  | num (n : Int)
  | str (s : String)
  | arr (xs : List JVal)
  | obj (kvs : List (String × JVal))

/-- Python truthiness of a decoded JSON value. -/
def JVal.truthy : JVal → Bool
  | .null => false
  | .bool b => b
  | .num n => n != 0
  | .str s => s != ""
  | .arr xs => !xs.isEmpty
  | .obj kvs => !kvs.isEmpty

def jLookup (kvs : List (String × JVal)) (k : String) : Option JVal :=
  (kvs.find? (fun p => p.1 == k)).map (fun p => p.2)

/-- `d.get(k, dflt)` on a decoded JSON object. -/
def pyGetD (kvs : List (String × JVal)) (k : String) (dflt : JVal) : JVal :=
  (jLookup kvs k).getD dflt

/-- Python `x or y`. -/
def pyOr (x y : JVal) : JVal := if x.truthy then x else y

/-- Python `str(value)` on a decoded JSON value.  Container reprs are
abbreviated: the pipeline only ever formats non-container values here (a
non-string `obsTimeLocal`), and no claim depends on container text. -/
def pyStrOf : JVal → String
  | .null => "None"
  | .bool true => "True"
  | .bool false => "False"
  | .num n => toString n
  | .str s => s
  | .arr _ => "[...]"
  | .obj _ => "\x7b...\x7d"

/-! ## The timestamp normalizer (`parse_any_datetime`, source lines 56-79) -/

/-- The input domain of `parse_any_datetime`: Python `None`, a string, or an
already-structured (naive or aware) `datetime`. -/
inductive PyDtIn where
  | pynone
  | pystr (s : String)
  | pydt (f : Tm) (off : Option Int)

/-- `parse_any_datetime`, parameterised by the model `P` of
`dateutil.parser.parse`: `P s = none` models both a raised exception and a
`None` result; `P s = some (f, none)` a parse without timezone information;
`P s = some (f, some off)` a parse carrying a UTC offset of `off` seconds. -/
def parse_any_datetime (P : String → Option (Tm × Option Int)) :
    PyDtIn → Option Aware
  | .pynone => none
  | .pydt f none => some (tzLocalize f)
  | .pydt f (some off) => some (astimezoneTZ ⟨f, off⟩)
  | .pystr s =>
    if s = "" then none
    else
      match P s with
      | none => none
      | some (f, none) => some (tzLocalize f)
      | some (f, some off) => some (astimezoneTZ ⟨f, off⟩)

/-- The concrete parser instance: `dateutil.parser.parse` restricted to the
pipeline's own fixed write format (always timezone-naive). -/
def fixedP (s : String) : Option (Tm × Option Int) :=
  (fixedFormatParse s).map (fun t => (t, none))

/-- How `parse_any_datetime` is fed a JSON field value: JSON `null` decodes
to Python `None`; a string is used as is; anything else goes through
`str(value)`. -/
def pyInOf (v : JVal) : PyDtIn :=
  match v with
  | .null => .pynone
  | .str s => .pystr s
  | v => .pystr (pyStrOf v)

/-! ## The log reader (`get_last_logged_timestamp`, source lines 117-131) -/

/-- The `str(row[0]).strip()` test of the loop body. -/
def rowHasTs (row : List String) : Bool :=
  match row with
  | [] => false
  | c :: _ => pyStrip c != ""

/-- The `for row in reversed(values[1:])` loop: the list argument is the
already-reversed tail. -/
def scanRows (P : String → Option (Tm × Option Int)) :
    List (List String) → Option Aware
  | [] => none
  | row :: rest =>
    if rowHasTs row then parse_any_datetime P (.pystr (row.headD ""))
    else scanRows P rest

def get_last_logged_timestamp (P : String → Option (Tm × Option Int))
    (values : List (List String)) : Option Aware :=
  if values.length < 2 then none
  else scanRows P (values.drop 1).reverse

/-! ## The fetch classifier (`safe_fetch_current`, source lines 92-114) -/

/-- One HTTP response: status, body text, and the result of `r.json()`
(`none` when the body is not valid JSON and the call raises). -/
structure FetchResult where
  status : Int
  text : String
  json : Option JVal

def safe_fetch_current (r : FetchResult) : Int × Option JVal × String :=
  if r.status = 204 then (r.status, none, r.text)
  else if r.status ≠ 200 then (r.status, none, r.text)
  else if pyStrip r.text = "" then (r.status, none, r.text)
  else (r.status, r.json, r.text)

/-! ## The duplicate guard and row mapper (source lines 180-206) -/

inductive SkipReason where
  | noData
  | apiError (status : Int) (excerpt : String)
  | emptyObs
  | missingTs
  | unparsableTs
  | notNewer
  | tooSoon
deriving DecidableEq, Repr

/-- The admission decision of source lines 182-191, on instants:
`none` = admit, `some r` = skip with reason `r`. -/
def dupGuard (W tNew : Int) (tLast : Option Int) : Option SkipReason :=
  match tLast with
  | none => none
  | some tl =>
    if tNew ≤ tl then some .notNewer
    else if tNew - tl < W then some .tooSoon
    else none

/-- Row construction of source lines 194-206.  `none` models the
`AttributeError` crash of `m.get` when the observation's `metric` field is
present, truthy and not an object. -/
def buildRow (okvs : List (String × JVal)) (tsStr : String) :
    Option (List JVal) :=
  match pyOr (pyGetD okvs "metric" .null) (.obj []) with
  | .obj mkvs => some
      [.str tsStr,
       pyGetD mkvs "temp" (.str ""),
       pyGetD mkvs "windSpeed" (.str ""),
       pyGetD mkvs "windGust" (.str ""),
       pyGetD okvs "winddir" (.str ""),
       pyGetD mkvs "precipRate" (.str ""),
       pyGetD mkvs "precipTotal" (.str ""),
       pyGetD mkvs "pressure" (.str ""),
       pyGetD okvs "humidity" (.str "")]
  | _ => none

/-- Sheet read-back of an appended cell (`append_row` with `USER_ENTERED`
followed by `get_all_values`); only the first cell, a timestamp string, is
ever read back by the pipeline. -/
def cellToStr : JVal → String := pyStrOf

def dataTruthy : Option JVal → Bool
  | none => false
  | some v => v.truthy

/-! ## The pipeline (`main`, source lines 137-210) -/

inductive RunResult where
  | skipped (r : SkipReason)
  | appended (row : List JVal)
  | crash

/-- Outcome of one run: the reported result, the sheet contents afterwards,
and whether any log-store operation (read or append) happened. -/
structure RunOut where
  result : RunResult
  sheet : List (List String)
  readLog : Bool

/-- Python slicing `s[:n]`: the first `n` code points of `s`. -/
def pyTake (s : String) (n : Nat) : String := ⟨s.data.take n⟩

/-- One pipeline run (`main`), starting after `require_env`, on a fetched
response `r`, current sheet contents `values` and window `W`
(`DUP_WINDOW_SEC`).  `crash` marks the unhandled `TypeError`/`KeyError`/
`AttributeError` Python raises when the decoded body is a truthy non-object,
`observations` is truthy but not a list, the first entry is not an object,
or `metric` is truthy but not an object. -/
def main (P : String → Option (Tm × Option Int)) (r : FetchResult)
    (values : List (List String)) (W : Int) : RunOut :=
  let fetched := safe_fetch_current r
  let status := fetched.1
  let data := fetched.2.1
  let raw := fetched.2.2
  if status = 204 then ⟨.skipped .noData, values, false⟩
  else if status ≠ 200 ∨ dataTruthy data = false then
    ⟨.skipped (.apiError status (pyTake raw 300)), values, false⟩
  else
    match data with
    | some d =>
      match d with
      | .obj kvs =>
        let obsVal := pyOr (pyGetD kvs "observations" .null) (.arr [])
        if obsVal.truthy = false then ⟨.skipped .emptyObs, values, false⟩
        else
          match obsVal with
          | .arr l =>
            match l with
            | obs :: _ =>
              match obs with
              | .obj okvs =>
                let otl := pyGetD okvs "obsTimeLocal" .null
                if otl.truthy = false then ⟨.skipped .missingTs, values, false⟩
                else
                  match parse_any_datetime P (pyInOf otl) with
                  | none => ⟨.skipped .unparsableTs, values, false⟩
                  | some ts0 =>
                    let obsTs := astimezoneTZ ts0
                    let tsStr := formatTm obsTs.f
                    let lastTs := get_last_logged_timestamp P values
                    match dupGuard W (instantOf obsTs) (lastTs.map instantOf) with
                    | some reason => ⟨.skipped reason, values, true⟩
                    | none =>
                      match buildRow okvs tsStr with
                      | some row =>
                        ⟨.appended row, values ++ [row.map cellToStr], true⟩
                      | none => ⟨.crash, values, true⟩
              | _ => ⟨.crash, values, false⟩
            | [] => ⟨.crash, values, false⟩
          | _ => ⟨.crash, values, false⟩
      | _ => ⟨.crash, values, false⟩
    | none => ⟨.crash, values, false⟩

/-- The skip reason reported by a run, if any. -/
def RunResult.skipReason : RunResult → Option SkipReason
  | .skipped r => some r
  | _ => none

/-- The guard only ever skips for the two duplicate-related reasons. -/
theorem dupGuard_some (W t : Int) (tl : Option Int) (r : SkipReason)
    (h : dupGuard W t tl = some r) : r = .notNewer ∨ r = .tooSoon := by
  unfold dupGuard at h
  split at h
  · cases h
  · split at h
    · cases h
      exact Or.inl rfl
    · split at h
      · cases h
        exact Or.inr rfl
      · cases h

/-- Admission characterized: the guard admits exactly when there is no prior
instant, or the new instant is strictly newer and the gap is at least `W`. -/
theorem dupGuard_none_iff (W t : Int) (tl : Option Int) :
    dupGuard W t tl = none ↔
      tl = none ∨ ∃ l, tl = some l ∧ l < t ∧ W ≤ t - l := by
  cases tl with
  | none => simp [dupGuard]
  | some l =>
    simp only [dupGuard]
    by_cases h1 : t ≤ l
    · rw [if_pos h1]
      constructor
      · intro h
        cases h
      · rintro (h | ⟨l', hl', hlt, hW⟩)
        · cases h
        · cases hl'
          exact absurd hlt (by omega)
    · rw [if_neg h1]
      by_cases h2 : t - l < W
      · rw [if_pos h2]
        constructor
        · intro h
          cases h
        · rintro (h | ⟨l', hl', hlt, hW⟩)
          · cases h
          · cases hl'
            exact absurd hW (by omega)
      · rw [if_neg h2]
        constructor
        · intro h
          exact Or.inr ⟨l, rfl, by omega, by omega⟩
        · intro h
          rfl

/-- Lower bound on the civil day count of a valid date (Jan 1 of year 1 is
day 306 of the shifted epoch). -/
theorem civilDays_lb (y m d : Nat) (hy : 1 ≤ y) (hm : 1 ≤ m) (hd : 1 ≤ d) :
    306 ≤ civilDays y m d := by
  unfold civilDays
  by_cases hm2 : m ≤ 2
  · simp only [if_pos hm2]
    omega
  · simp only [if_neg hm2]
    omega

theorem tmToSecs_lb (t : Tm) (h : validTm t = true) : 26438400 ≤ tmToSecs t := by
  simp only [validTm, Bool.and_eq_true, decide_eq_true_eq] at h
  have := civilDays_lb t.year t.month t.day (by omega) (by omega) (by omega)
  unfold tmToSecs
  omega

/-- Converting an aware value with valid fields and a real-world offset to
the configured zone preserves its instant. -/
theorem astimezoneTZ_instant (f : Tm) (off : Int) (hv : validTm f = true)
    (h1 : -86400 ≤ off) (h2 : off ≤ 86400) :
    instantOf (astimezoneTZ ⟨f, off⟩) = instantOf ⟨f, off⟩ := by
  have hlb := tmToSecs_lb f hv
  have hx : (0 : Int) ≤ (tmToSecs f : Int) - off + tzOffsetSec := by
    simp only [tzOffsetSec]
    omega
  simp only [astimezoneTZ, instantOf]
  rw [tmToSecs_secsToTm, Int.toNat_of_nonneg hx]
  ring

/-! ## The log invariant (claim C2) -/

/-- `res` is an `appended` outcome. -/
def RunResult.isAppended : RunResult → Bool
  | .appended _ => true
  | _ => false

/-- A well-formed log: every data row's first cell is exactly the fixed
write format of the timestamp it parses to (which is how the pipeline
itself writes rows). -/
def wfLog (values : List (List String)) : Bool :=
  (values.drop 1).all (fun row =>
    match fixedFormatParse (row.headD "") with
    | some t => formatTm t == row.headD ""
    | none => false)

/-- The timestamp column of the data rows, in seconds. -/
def tsColSecs (values : List (List String)) : List Nat :=
  (values.drop 1).filterMap
    (fun row => (fixedFormatParse (row.headD "")).map tmToSecs)

/-- The log invariant: well-formed rows and a non-decreasing timestamp
column. -/
def logInv (values : List (List String)) : Prop :=
  wfLog values = true ∧ List.Chain' (· ≤ ·) (tsColSecs values)

/-- A produced row always starts with the formatted-timestamp string cell. -/
theorem buildRow_head (okvs : List (String × JVal)) (tsStr : String)
    (row : List JVal) (h : buildRow okvs tsStr = some row) :
    ∃ rest, row = .str tsStr :: rest := by
  unfold buildRow at h
  split at h
  · injection h with h
    exact ⟨_, h.symm⟩
  · cases h

/-- Under the pipeline's own parser, a successful normalization of a JSON
field value is a localized, calendar-valid timestamp. -/
theorem parse_pyInOf_fixedP (v : JVal) (a : Aware)
    (h : parse_any_datetime fixedP (pyInOf v) = some a) :
    ∃ f, a = tzLocalize f ∧ validTm f = true := by
  have key : ∀ s, parse_any_datetime fixedP (.pystr s) = some a →
      ∃ f, a = tzLocalize f ∧ validTm f = true := by
    intro s hs
    simp only [parse_any_datetime] at hs
    split at hs
    · cases hs
    · rcases hf : fixedFormatParse s with _ | t
      · rw [show fixedP s = none by simp [fixedP, hf]] at hs
        cases hs
      · rw [show fixedP s = some (t, none) by simp [fixedP, hf]] at hs
        injection hs with hs
        exact ⟨t, hs.symm, fixedFormatParse_valid s t hf⟩
  cases v with
  | null => simp [pyInOf, parse_any_datetime] at h
  | bool b => exact key _ h
  | num n => exact key _ h
  | str s => exact key _ h
  | arr l => exact key _ h
  | obj kvs => exact key _ h

/-- On a well-formed log with at least one data row, the reader returns the
localized timestamp of the bottom data row, which is also the last entry of
the timestamp column. -/
theorem gllt_wf (values : List (List String)) (hwf : wfLog values = true)
    (hlen : 2 ≤ values.length) :
    ∃ t, validTm t = true ∧
      get_last_logged_timestamp fixedP values = some (tzLocalize t) ∧
      (tsColSecs values).getLast? = some (tmToSecs t) := by
  obtain ⟨init, r, hrows⟩ : ∃ init r, values.drop 1 = init ++ [r] := by
    rcases List.eq_nil_or_concat (values.drop 1) with hnil | ⟨init, r, hsplit⟩
    · exfalso
      have hld := List.length_drop 1 values
      rw [hnil] at hld
      simp only [List.length_nil] at hld
      omega
    · exact ⟨init, r, by rw [hsplit, List.concat_eq_append]⟩
  unfold wfLog at hwf
  rw [hrows] at hwf
  simp only [List.all_append, List.all_cons, List.all_nil, Bool.and_true,
    Bool.and_eq_true] at hwf
  obtain ⟨hwInit, hwr⟩ := hwf
  rcases hp : fixedFormatParse (r.headD "") with _ | t
  · rw [hp] at hwr
    cases hwr
  · rw [hp] at hwr
    have hceq : formatTm t = r.headD "" := by simpa using hwr
    have hvt : validTm t = true := fixedFormatParse_valid _ _ hp
    obtain ⟨c, cs, hr⟩ : ∃ c cs, r = c :: cs := by
      cases r with
      | nil =>
        rw [List.headD_nil, show fixedFormatParse "" = none from rfl] at hp
        cases hp
      | cons c cs => exact ⟨c, cs, rfl⟩
    subst hr
    simp only [List.headD_cons] at hp hceq
    have hcne : c ≠ "" := by
      intro h0
      apply pyStrip_formatTm_ne t
      rw [hceq, h0]
      rfl
    have hts : rowHasTs (c :: cs) = true := by
      simp only [rowHasTs, bne_iff_ne, ne_eq]
      rw [← hceq]
      exact pyStrip_formatTm_ne t
    have hparse : parse_any_datetime fixedP (.pystr c) = some (tzLocalize t) := by
      simp only [parse_any_datetime]
      rw [if_neg hcne]
      have hfp : fixedP c = some (t, none) := by
        unfold fixedP
        rw [hp]
        rfl
      rw [hfp]
    refine ⟨t, hvt, ?_, ?_⟩
    · unfold get_last_logged_timestamp
      rw [if_neg (by omega), hrows, List.reverse_append]
      simp only [List.reverse_cons, List.reverse_nil, List.nil_append,
        List.singleton_append]
      unfold scanRows
      rw [if_pos hts]
      simp only [List.headD_cons]
      exact hparse
    · unfold tsColSecs
      rw [hrows, List.filterMap_append]
      simp only [List.filterMap_cons, List.filterMap_nil, List.headD_cons, hp,
        Option.map_some']
      exact List.getLast?_concat _

/-- Lists with at most one entry are trivially sorted. -/
theorem chain_of_short (l : List Nat) (h : l.length ≤ 1) :
    List.Chain' (· ≤ ·) l := by
  cases l with
  | nil => exact List.chain'_nil
  | cons a tl =>
    cases tl with
    | nil => exact List.chain'_singleton a
    | cons b tl2 => simp at h

/-- Dissection of a run: either the sheet is untouched and nothing was
appended, or the run appended a row built from a normalized timestamp that
passed the duplicate guard against the freshly read last instant. -/
theorem main_cases (P : String → Option (Tm × Option Int)) (r : FetchResult)
    (values : List (List String)) (W : Int) :
    ((main P r values W).result.isAppended = false ∧
      (main P r values W).sheet = values) ∨
    ∃ row v a rest,
      (main P r values W).result = .appended row ∧
      parse_any_datetime P (pyInOf v) = some a ∧
      row = .str (formatTm (astimezoneTZ a).f) :: rest ∧
      (main P r values W).sheet = values ++ [row.map cellToStr] ∧
      dupGuard W (instantOf (astimezoneTZ a))
        ((get_last_logged_timestamp P values).map instantOf) = none := by
  have key : ∀ out, main P r values W = out →
      (out.result.isAppended = false ∧ out.sheet = values) ∨
      ∃ row v a rest,
        out.result = .appended row ∧
        parse_any_datetime P (pyInOf v) = some a ∧
        row = .str (formatTm (astimezoneTZ a).f) :: rest ∧
        out.sheet = values ++ [row.map cellToStr] ∧
        dupGuard W (instantOf (astimezoneTZ a))
          ((get_last_logged_timestamp P values).map instantOf) = none := by
    intro out hout
    unfold main at hout
    dsimp only at hout
    repeat' split at hout
    all_goals subst hout
    all_goals first
      | (left; exact ⟨rfl, rfl⟩)
      | (right
         rename_i x2 ts0 hparse x1 hdup x0 row hbuild
         obtain ⟨rest, hrow⟩ := buildRow_head _ _ _ hbuild
         exact ⟨row, _, ts0, rest, rfl, hparse, hrow, rfl, hdup⟩)
  exact key _ rfl

/-- One run preserves the log invariant under the pipeline's own parser. -/
theorem logInv_preserved (r : FetchResult) (values : List (List String))
    (W : Int) (h : logInv values) :
    logInv (main fixedP r values W).sheet := by
  obtain ⟨hwf, hch⟩ := h
  rcases main_cases fixedP r values W with ⟨_, hsheet⟩ |
    ⟨row, v, a, rest, hres, hparse, hrow, hsheet, hguard⟩
  · rw [hsheet]
    exact ⟨hwf, hch⟩
  · obtain ⟨f, haf, hvf⟩ := parse_pyInOf_fixedP v a hparse
    subst haf
    rw [astimezoneTZ_localized f hvf] at hrow hguard
    have hfeq : (tzLocalize f).f = f := rfl
    rw [hfeq] at hrow
    rw [hsheet, hrow]
    simp only [List.map_cons]
    have hcs : cellToStr (.str (formatTm f)) = formatTm f := rfl
    rw [hcs]
    constructor
    · unfold wfLog at hwf ⊢
      cases values with
      | nil =>
        simp only [List.nil_append, List.drop_succ_cons, List.drop_nil,
          List.all_nil]
      | cons hd tl =>
        simp only [List.drop_succ_cons, List.drop_zero] at hwf
        simp only [List.cons_append, List.drop_succ_cons, List.drop_zero,
          List.all_append, List.all_cons, List.all_nil, Bool.and_true,
          Bool.and_eq_true]
        refine ⟨hwf, ?_⟩
        simp only [List.headD_cons, fixedFormatParse_formatTm f hvf,
          beq_self_eq_true]
    · by_cases hlen : 2 ≤ values.length
      · obtain ⟨t, hvt, hglt, hlast⟩ := gllt_wf values hwf hlen
        obtain ⟨hd, tl, hv⟩ : ∃ hd tl, values = hd :: tl := by
          cases values with
          | nil => simp at hlen
          | cons hd tl => exact ⟨hd, tl, rfl⟩
        have hcol : tsColSecs ((hd :: tl) ++
            [formatTm f :: List.map cellToStr rest]) =
            tsColSecs (hd :: tl) ++ [tmToSecs f] := by
          unfold tsColSecs
          simp only [List.cons_append, List.drop_succ_cons, List.drop_zero,
            List.filterMap_append, List.filterMap_cons, List.filterMap_nil,
            List.headD_cons, fixedFormatParse_formatTm f hvf,
            Option.map_some']
        rw [hv] at hch hglt hlast hguard ⊢
        rw [hcol]
        rw [List.chain'_append]
        refine ⟨hch, List.chain'_singleton _, ?_⟩
        intro x hx y hy
        rw [hlast, Option.mem_def, Option.some.injEq] at hx
        simp only [List.head?_cons, Option.mem_def, Option.some.injEq] at hy
        subst hx
        subst hy
        rw [hglt] at hguard
        rw [Option.map_some'] at hguard
        rw [dupGuard_none_iff] at hguard
        rcases hguard with hnone | ⟨l, hsome, hlt, hW⟩
        · cases hnone
        · rw [Option.some.injEq] at hsome
          subst hsome
          simp only [instantOf, tzLocalize] at hlt
          omega
      · apply chain_of_short
        unfold tsColSecs
        have h1 : ((values ++ [formatTm f :: List.map cellToStr rest]).drop
            1).length ≤ 1 := by
          rw [List.length_drop, List.length_append]
          simp only [List.length_cons, List.length_nil]
          omega
        calc (List.filterMap _ _).length ≤ _ := List.length_filterMap_le _ _
          _ ≤ 1 := h1

/-! ## Claim theorems -/

/-- C1: the duplicate guard admits when no last instant exists, skips with
not-newer-than-last when `t_new <= t_last`, skips with too-soon when
`0 < t_new - t_last < W`, and admits otherwise; with `W = 60` an observation
exactly 60 seconds after the last one is admitted (inclusive boundary). -/
theorem c1_dup_guard (W tNew tl : Int) :
    dupGuard W tNew none = none ∧
    (tNew ≤ tl → dupGuard W tNew (some tl) = some .notNewer) ∧
    (tl < tNew → tNew - tl < W → dupGuard W tNew (some tl) = some .tooSoon) ∧
    (tl < tNew → W ≤ tNew - tl → dupGuard W tNew (some tl) = none) ∧
    (tNew - tl = 60 → dupGuard 60 tNew (some tl) = none) := by
  refine ⟨rfl, ?_, ?_, ?_, ?_⟩ <;> simp only [dupGuard]
  · intro h
    rw [if_pos h]
  · intro h1 h2
    rw [if_neg (by omega), if_pos h2]
  · intro h1 h2
    rw [if_neg (by omega), if_neg (by omega)]
  · intro h
    rw [if_neg (by omega), if_neg (by omega)]

theorem c1_dup_guard_witness :
    dupGuard 60 1704103260 (some 1704103200) = none ∧
    dupGuard 60 1704103245 (some 1704103200) = some .tooSoon ∧
    dupGuard 60 1704103200 (some 1704103200) = some .notNewer ∧
    dupGuard 60 1704103260 none = none :=
  ⟨(c1_dup_guard 60 1704103260 1704103200).2.2.2.2 (by norm_num),
   (c1_dup_guard 60 1704103245 1704103200).2.2.1 (by norm_num) (by norm_num),
   (c1_dup_guard 60 1704103200 1704103200).2.1 (by norm_num),
   (c1_dup_guard 60 1704103260 1704103200).1⟩

/-- C7: the timestamp normalizer is total over its whole input domain and
maps absent or empty input to no result, a structured datetime always to a
result, and a failed text parse to not-parseable; it returns `none` exactly
for absent/empty input or a parse failure. -/
theorem c7_normalizer_total (P : String → Option (Tm × Option Int)) :
    parse_any_datetime P .pynone = none ∧
    parse_any_datetime P (.pystr "") = none ∧
    (∀ f off, ∃ a, parse_any_datetime P (.pydt f off) = some a) ∧
    (∀ s, s ≠ "" → P s = none → parse_any_datetime P (.pystr s) = none) ∧
    (∀ v, parse_any_datetime P v = none ↔
      v = .pynone ∨ ∃ s, v = .pystr s ∧ (s = "" ∨ P s = none)) := by
  refine ⟨rfl, rfl, ?_, ?_, ?_⟩
  · intro f off
    cases off <;> exact ⟨_, rfl⟩
  · intro s hs hP
    simp [parse_any_datetime, hs, hP]
  · intro v
    cases v with
    | pynone => simp [parse_any_datetime]
    | pystr s =>
      by_cases hs : s = ""
      · subst hs
        simp [parse_any_datetime]
      · rcases hP : P s with - | ⟨f, off⟩
        · simp [parse_any_datetime, hs, hP]
        · cases off <;> simp [parse_any_datetime, hs, hP]
    | pydt f off => cases off <;> simp [parse_any_datetime]

theorem c7_normalizer_total_witness :
    parse_any_datetime fixedP .pynone = none ∧
    parse_any_datetime fixedP (.pystr "") = none ∧
    parse_any_datetime fixedP (.pystr "not a timestamp") = none :=
  ⟨(c7_normalizer_total fixedP).1, (c7_normalizer_total fixedP).2.1,
   (c7_normalizer_total fixedP).2.2.2.1 "not a timestamp" (by decide) (by rfl)⟩

/-- C8: a parsed value without timezone information is tagged with the
configured zone with its fields unchanged; one carrying an offset is
converted to the configured zone preserving its instant; every produced
canonical instant carries the configured zone. -/
theorem c8_timezone (P : String → Option (Tm × Option Int)) :
    (∀ f, parse_any_datetime P (.pydt f none) = some (tzLocalize f) ∧
      (tzLocalize f).f = f ∧ (tzLocalize f).off = tzOffsetSec) ∧
    (∀ s f, s ≠ "" → P s = some (f, none) →
      parse_any_datetime P (.pystr s) = some (tzLocalize f)) ∧
    (∀ f off, parse_any_datetime P (.pydt f (some off)) =
        some (astimezoneTZ ⟨f, off⟩) ∧
      (astimezoneTZ ⟨f, off⟩).off = tzOffsetSec) ∧
    (∀ f off, validTm f = true → -86400 ≤ off → off ≤ 86400 →
      instantOf (astimezoneTZ ⟨f, off⟩) = instantOf ⟨f, off⟩) ∧
    (∀ v a, parse_any_datetime P v = some a → a.off = tzOffsetSec) := by
  refine ⟨fun f => ⟨rfl, rfl, rfl⟩, ?_, fun f off => ⟨rfl, rfl⟩,
    fun f off hv h1 h2 => astimezoneTZ_instant f off hv h1 h2, ?_⟩
  · intro s f hs hP
    simp [parse_any_datetime, hs, hP]
  · intro v a h
    cases v with
    | pynone => cases h
    | pystr s =>
      by_cases hs : s = ""
      · subst hs
        simp [parse_any_datetime] at h
      · rcases hP : P s with - | ⟨f, off⟩
        · simp [parse_any_datetime, hs, hP] at h
        · rcases off with - | off
          · simp only [parse_any_datetime, if_neg hs, hP,
              Option.some.injEq] at h
            subst h
            rfl
          · simp only [parse_any_datetime, if_neg hs, hP,
              Option.some.injEq] at h
            subst h
            rfl
    | pydt f off =>
      cases off <;> cases h <;> rfl

/-- The reader loop is the first match in the reversed data rows. -/
theorem scanRows_eq (P : String → Option (Tm × Option Int))
    (l : List (List String)) :
    scanRows P l = (l.find? rowHasTs).bind
      (fun row => parse_any_datetime P (.pystr (row.headD ""))) := by
  induction l with
  | nil => rfl
  | cons row rest ih =>
    cases h : rowHasTs row with
    | true => simp [scanRows, List.find?, h]
    | false => simp [scanRows, List.find?, h, ih]

/-- C3: the log reader returns the parse of the bottom-most row whose first
cell is non-blank (header excluded), and returns none exactly when no such
row exists or the row it finds does not parse as a timestamp. -/
theorem c3_log_reader (P : String → Option (Tm × Option Int))
    (values : List (List String)) :
    get_last_logged_timestamp P values =
      ((values.drop 1).reverse.find? rowHasTs).bind
        (fun row => parse_any_datetime P (.pystr (row.headD ""))) ∧
    (get_last_logged_timestamp P values = none ↔
      (∀ row ∈ values.drop 1, rowHasTs row = false) ∨
      ∃ row, (values.drop 1).reverse.find? rowHasTs = some row ∧
        parse_any_datetime P (.pystr (row.headD "")) = none) := by
  have h1 : get_last_logged_timestamp P values =
      ((values.drop 1).reverse.find? rowHasTs).bind
        (fun row => parse_any_datetime P (.pystr (row.headD ""))) := by
    unfold get_last_logged_timestamp
    by_cases h : values.length < 2
    · rw [if_pos h]
      have hd : values.drop 1 = [] := by
        rcases values with - | ⟨a, - | ⟨b, l⟩⟩
        · rfl
        · rfl
        · simp at h
          omega
      rw [hd]
      rfl
    · rw [if_neg h]
      exact scanRows_eq P (values.drop 1).reverse
  refine ⟨h1, ?_⟩
  rw [h1]
  rcases hf : (values.drop 1).reverse.find? rowHasTs with - | row
  · simp only [Option.none_bind]
    constructor
    · intro _
      refine Or.inl ?_
      intro row hrow
      have := List.find?_eq_none.mp hf row (List.mem_reverse.mpr hrow)
      simpa using this
    · intro _
      trivial
  · simp only [Option.some_bind]
    constructor
    · intro h
      exact Or.inr ⟨row, rfl, h⟩
    · rintro (hall | ⟨row', hf', hp⟩)
      · have hmem := List.mem_of_find?_eq_some hf
        have hprop := List.find?_some hf
        have := hall row (List.mem_reverse.mp hmem)
        rw [this] at hprop
        cases hprop
      · cases hf'
        exact hp

/-- C5: every produced row has exactly the nine columns in the fixed order,
wind direction and humidity read from the top level and the other metrics
from the metric sub-object; a lookup miss yields the empty-string value and
a hit passes the value through unchanged. -/
theorem c5_row_mapping (okvs mkvs : List (String × JVal)) (ts : String)
    (hm : pyOr (pyGetD okvs "metric" .null) (.obj []) = .obj mkvs) :
    ∃ row, buildRow okvs ts = some row ∧ row.length = 9 ∧
      row = [.str ts,
        pyGetD mkvs "temp" (.str ""), pyGetD mkvs "windSpeed" (.str ""),
        pyGetD mkvs "windGust" (.str ""), pyGetD okvs "winddir" (.str ""),
        pyGetD mkvs "precipRate" (.str ""), pyGetD mkvs "precipTotal" (.str ""),
        pyGetD mkvs "pressure" (.str ""), pyGetD okvs "humidity" (.str "")] ∧
      (∀ (kvs : List (String × JVal)) k, jLookup kvs k = none →
        pyGetD kvs k (.str "") = .str "") ∧
      (∀ (kvs : List (String × JVal)) k v, jLookup kvs k = some v →
        pyGetD kvs k (.str "") = v) := by
  refine ⟨[.str ts,
      pyGetD mkvs "temp" (.str ""), pyGetD mkvs "windSpeed" (.str ""),
      pyGetD mkvs "windGust" (.str ""), pyGetD okvs "winddir" (.str ""),
      pyGetD mkvs "precipRate" (.str ""), pyGetD mkvs "precipTotal" (.str ""),
      pyGetD mkvs "pressure" (.str ""), pyGetD okvs "humidity" (.str "")],
    ?_, rfl, rfl, ?_, ?_⟩
  · unfold buildRow
    rw [hm]
  · intro kvs k h
    simp [pyGetD, h]
  · intro kvs k v h
    simp [pyGetD, h]

theorem c5_row_mapping_witness :
    ∃ row, buildRow [("obsTimeLocal", .str "2024-01-07 10:02:00"),
        ("winddir", .num 180), ("humidity", .num 55),
        ("metric", .obj [("temp", .num 21)])] "2024-01-07 10:02:00" =
      some row ∧ row.length = 9 ∧
      row = [.str "2024-01-07 10:02:00", .num 21, .str "", .str "", .num 180,
        .str "", .str "", .str "", .num 55] := by
  obtain ⟨row, h1, h2, h3, -, -⟩ := c5_row_mapping
    [("obsTimeLocal", .str "2024-01-07 10:02:00"), ("winddir", .num 180),
     ("humidity", .num 55), ("metric", .obj [("temp", .num 21)])]
    [("temp", .num 21)] "2024-01-07 10:02:00" (by rfl)
  exact ⟨row, h1, h2, by rw [h3]; rfl⟩

/-- C10: a null or absent metric field leaves row mapping total, producing
empty values in all six metric-sourced columns. -/
theorem c10_null_metric (okvs : List (String × JVal)) (ts : String)
    (h : jLookup okvs "metric" = none ∨ jLookup okvs "metric" = some .null) :
    buildRow okvs ts = some [.str ts, .str "", .str "", .str "",
      pyGetD okvs "winddir" (.str ""), .str "", .str "", .str "",
      pyGetD okvs "humidity" (.str "")] := by
  unfold buildRow
  have hmetric : pyOr (pyGetD okvs "metric" .null) (.obj []) = .obj [] := by
    rcases h with h | h <;> simp [pyOr, pyGetD, h, JVal.truthy]
  rw [hmetric]
  rfl

theorem c10_null_metric_witness :
    buildRow [("winddir", .num 180)] "2024-01-07 10:02:00" =
      some [.str "2024-01-07 10:02:00", .str "", .str "", .str "", .num 180,
        .str "", .str "", .str "", .str ""] ∧
    buildRow [("metric", .null), ("humidity", .num 55)] "2024-01-07 10:02:00" =
      some [.str "2024-01-07 10:02:00", .str "", .str "", .str "", .str "",
        .str "", .str "", .str "", .num 55] :=
  ⟨c10_null_metric [("winddir", .num 180)] "2024-01-07 10:02:00"
      (Or.inl (by rfl)),
   c10_null_metric [("metric", .null), ("humidity", .num 55)]
      "2024-01-07 10:02:00" (Or.inr (by rfl))⟩

/-- C6: formatting a canonical instant with the fixed pattern and
normalizing the resulting string again yields the same instant, exact to
the second. -/
theorem c6_roundtrip (a : Aware) (hoff : a.off = tzOffsetSec)
    (hv : validTm a.f = true) :
    parse_any_datetime fixedP (.pystr (formatTm a.f)) = some a := by
  obtain ⟨t, off⟩ := a
  simp only at hoff hv
  subst hoff
  have hne : formatTm t ≠ "" := by
    intro hcon
    rw [String.ext_iff] at hcon
    simp [formatTm] at hcon
  simp only [parse_any_datetime, if_neg hne, fixedP,
    fixedFormatParse_formatTm t hv]
  rfl

theorem c6_roundtrip_witness :
    parse_any_datetime fixedP
        (.pystr (formatTm (⟨⟨2024, 1, 7, 10, 2, 0⟩, tzOffsetSec⟩ : Aware).f)) =
      some ⟨⟨2024, 1, 7, 10, 2, 0⟩, tzOffsetSec⟩ :=
  c6_roundtrip ⟨⟨2024, 1, 7, 10, 2, 0⟩, tzOffsetSec⟩ rfl (by decide)

theorem c8_timezone_witness :
    parse_any_datetime fixedP (.pydt ⟨2024, 1, 7, 10, 2, 0⟩ none) =
      some (tzLocalize ⟨2024, 1, 7, 10, 2, 0⟩) ∧
    parse_any_datetime fixedP (.pystr "2024-01-07 10:02:00") =
      some (tzLocalize ⟨2024, 1, 7, 10, 2, 0⟩) ∧
    instantOf (astimezoneTZ ⟨⟨2024, 1, 7, 10, 2, 0⟩, 3600⟩) =
      instantOf ⟨⟨2024, 1, 7, 10, 2, 0⟩, 3600⟩ :=
  ⟨((c8_timezone fixedP).1 ⟨2024, 1, 7, 10, 2, 0⟩).1,
   (c8_timezone fixedP).2.1 "2024-01-07 10:02:00" ⟨2024, 1, 7, 10, 2, 0⟩
     (by decide) (by rfl),
   (c8_timezone fixedP).2.2.2.1 ⟨2024, 1, 7, 10, 2, 0⟩ 3600 (by decide)
     (by norm_num) (by norm_num)⟩

/-- C9: a run that skips for a missing or unparsable `obsTimeLocal`
terminates before any log-store operation: the log is not read and the
sheet is unchanged. -/
theorem c9_frame (P : String → Option (Tm × Option Int)) (r : FetchResult)
    (values : List (List String)) (W : Int)
    (h : (main P r values W).result.skipReason = some .missingTs ∨
         (main P r values W).result.skipReason = some .unparsableTs) :
    (main P r values W).readLog = false ∧ (main P r values W).sheet = values := by
  have key : ∀ out : RunOut, main P r values W = out →
      (out.result.skipReason = some .missingTs ∨
       out.result.skipReason = some .unparsableTs) →
      out.readLog = false ∧ out.sheet = values := by
    intro out hout hre
    unfold main at hout
    dsimp only at hout
    repeat' split at hout
    all_goals subst hout
    all_goals first
      | exact ⟨rfl, rfl⟩
      | (exfalso
         rename_i reason hg
         rcases dupGuard_some _ _ _ _ hg with hr2 | hr2 <;> subst hr2 <;>
           rcases hre with hx | hx <;> simp [RunResult.skipReason] at hx)
      | (exfalso
         rcases hre with hx | hx <;> simp [RunResult.skipReason] at hx)
  exact key _ rfl h

set_option maxRecDepth 10000 in
theorem c9_frame_witness :
    (main fixedP ⟨200, "x", some (.obj [("observations",
        .arr [.obj [("winddir", .num 180)]])])⟩ [["Timestamp"]] 60).result.skipReason
      = some .missingTs ∧
    (main fixedP ⟨200, "x", some (.obj [("observations",
        .arr [.obj [("winddir", .num 180)]])])⟩ [["Timestamp"]] 60).readLog = false ∧
    (main fixedP ⟨200, "x", some (.obj [("observations",
        .arr [.obj [("winddir", .num 180)]])])⟩ [["Timestamp"]] 60).sheet =
      [["Timestamp"]] :=
  ⟨by decide,
   c9_frame fixedP ⟨200, "x", some (.obj [("observations",
     .arr [.obj [("winddir", .num 180)]])])⟩ [["Timestamp"]] 60 (Or.inl (by decide))⟩

set_option maxRecDepth 4000 in
/-- C4 counterexample: a 200 response whose body is the valid JSON `{}`
(an empty — hence Python-falsy — object with no `observations` list) is
classified as an API error carrying status 200, not as an
empty-observations skip as the claim states. -/
theorem c4_counterexample :
    (main fixedP ⟨200, "\x7b\x7d", some (.obj [])⟩ [] 60).result.skipReason =
      some (.apiError 200 "\x7b\x7d") ∧
    (main fixedP ⟨200, "\x7b\x7d", some (.obj [])⟩ [] 60).result.skipReason ≠
      some .emptyObs := by
  constructor
  · decide
  · decide

/-- C4 (amended): response classification — 204 yields a no-data skip; any
other non-200 status an API-error skip with a 300-character body excerpt;
a 200 with blank or non-JSON body an API-error skip with status 200; a 200
whose JSON value is Python-falsy (such as the empty object) also an
API-error skip; a 200 with a truthy JSON object whose `observations` entry
is absent or falsy an empty-observations skip; and a 200 with a nonempty
`observations` list proceeds exactly as if only the first entry were
present. -/
theorem c4_classification (P : String → Option (Tm × Option Int))
    (r : FetchResult) (values : List (List String)) (W : Int) :
    (r.status = 204 → (main P r values W).result.skipReason = some .noData) ∧
    (r.status ≠ 204 → r.status ≠ 200 →
      (main P r values W).result.skipReason =
        some (.apiError r.status (pyTake r.text 300))) ∧
    (r.status = 200 → pyStrip r.text = "" ∨ r.json = none →
      (main P r values W).result.skipReason =
        some (.apiError 200 (pyTake r.text 300))) ∧
    (r.status = 200 → pyStrip r.text ≠ "" → ∀ j, r.json = some j →
      j.truthy = false →
      (main P r values W).result.skipReason =
        some (.apiError 200 (pyTake r.text 300))) ∧
    (∀ kvs, r.status = 200 → pyStrip r.text ≠ "" → r.json = some (.obj kvs) →
      kvs ≠ [] → (pyGetD kvs "observations" .null).truthy = false →
      (main P r values W).result.skipReason = some .emptyObs) ∧
    (∀ kvs o rest, r.status = 200 → pyStrip r.text ≠ "" →
      r.json = some (.obj kvs) →
      jLookup kvs "observations" = some (.arr (o :: rest)) →
      main P r values W =
        main P ⟨200, r.text, some (.obj [("observations", .arr [o])])⟩
          values W) := by
  obtain ⟨st, tx, js⟩ := r
  refine ⟨?_, ?_, ?_, ?_, ?_, ?_⟩
  · intro h
    simp only at h
    subst h
    rfl
  · intro h204 h200
    simp only at h204 h200
    have hs : safe_fetch_current ⟨st, tx, js⟩ = (st, none, tx) := by
      unfold safe_fetch_current
      rw [if_neg h204, if_pos h200]
    simp only [main, hs]
    try dsimp only
    rw [if_neg h204, if_pos (Or.inl h200)]
    rfl
  · intro h hbj
    simp only at h hbj
    subst h
    have hs : safe_fetch_current ⟨200, tx, js⟩ = (200, none, tx) := by
      rcases hbj with hb | hj
      · unfold safe_fetch_current
        rw [if_neg (by norm_num), if_neg (by norm_num), if_pos hb]
      · subst hj
        unfold safe_fetch_current
        by_cases hb : pyStrip tx = ""
        · rw [if_neg (by norm_num), if_neg (by norm_num), if_pos hb]
        · rw [if_neg (by norm_num), if_neg (by norm_num), if_neg hb]
    simp only [main, hs]
    try dsimp only
    rw [if_neg (by norm_num), if_pos (Or.inr (by rfl))]
    rfl
  · intro h htx j hj htr
    simp only at h htx hj
    subst h
    subst hj
    have hs : safe_fetch_current ⟨200, tx, some j⟩ = (200, some j, tx) := by
      unfold safe_fetch_current
      rw [if_neg (by norm_num), if_neg (by norm_num), if_neg htx]
    simp only [main, hs]
    try dsimp only
    rw [if_neg (by norm_num), if_pos (Or.inr (by simp [dataTruthy, htr]))]
    rfl
  · intro kvs h htx hj hne hobs
    simp only at h htx hj
    subst h
    subst hj
    have hs : safe_fetch_current ⟨200, tx, some (.obj kvs)⟩ =
        (200, some (.obj kvs), tx) := by
      unfold safe_fetch_current
      rw [if_neg (by norm_num), if_neg (by norm_num), if_neg htx]
    have hkt : (JVal.obj kvs).truthy = true := by
      simp [JVal.truthy, hne]
    have hov : (pyOr (pyGetD kvs "observations" .null) (.arr [])).truthy =
        false := by
      unfold pyOr
      rw [hobs]
      simp [JVal.truthy]
    simp only [main, hs]
    try dsimp only
    rw [if_neg (by norm_num), if_neg (by simp [dataTruthy, hkt]), if_pos hov]
    rfl
  · intro kvs o rest h htx hj hobs
    simp only at h htx hj
    subst h
    subst hj
    have hne : kvs ≠ [] := by
      intro hcon
      subst hcon
      simp [jLookup] at hobs
    have hkt : (JVal.obj kvs).truthy = true := by
      simp [JVal.truthy, hne]
    have hsL : safe_fetch_current ⟨200, tx, some (.obj kvs)⟩ =
        (200, some (.obj kvs), tx) := by
      unfold safe_fetch_current
      rw [if_neg (by norm_num), if_neg (by norm_num), if_neg htx]
    have hsR : safe_fetch_current
        ⟨200, tx, some (.obj [("observations", .arr [o])])⟩ =
        (200, some (.obj [("observations", .arr [o])]), tx) := by
      unfold safe_fetch_current
      rw [if_neg (by norm_num), if_neg (by norm_num), if_neg htx]
    have hpg : pyGetD kvs "observations" .null = .arr (o :: rest) := by
      simp [pyGetD, hobs]
    have hgL : pyOr (pyGetD kvs "observations" .null) (.arr []) =
        .arr (o :: rest) := by
      unfold pyOr
      rw [hpg]
      simp [JVal.truthy]
    have c1 : ¬ ((200 : Int) = 204) := by norm_num
    have c2L : ¬ ((200 : Int) ≠ 200 ∨
        dataTruthy (some (JVal.obj kvs)) = false) := by
      simp [dataTruthy, hkt]
    have c2R : ¬ ((200 : Int) ≠ 200 ∨
        dataTruthy (some (JVal.obj [("observations", JVal.arr [o])])) =
          false) := by
      simp [dataTruthy, JVal.truthy]
    have hovL : ¬ ((pyOr (pyGetD kvs "observations" .null)
        (.arr [])).truthy = false) := by
      rw [hgL]
      simp [JVal.truthy]
    simp only [main, hsL, hsR]
    try dsimp only
    rw [if_neg c1, if_neg c1, if_neg c2L, if_neg c2R, if_neg hovL]
    simp only [hgL]
    have hgR : pyOr (pyGetD [("observations", JVal.arr [o])] "observations"
        .null) (.arr []) = .arr [o] := by rfl
    rw [if_neg (by rw [hgR]; simp [JVal.truthy])]
    simp only [hgR]

set_option maxRecDepth 10000 in
theorem c4_classification_witness :
    (main fixedP ⟨204, "", none⟩ [] 60).result.skipReason = some .noData ∧
    (main fixedP ⟨500, "oops", none⟩ [] 60).result.skipReason =
      some (.apiError 500 "oops") ∧
    (main fixedP ⟨200, "not json", none⟩ [] 60).result.skipReason =
      some (.apiError 200 "not json") ∧
    (main fixedP ⟨200, "null", some .null⟩ [] 60).result.skipReason =
      some (.apiError 200 "null") ∧
    (main fixedP ⟨200, "j", some (.obj [("observations", .arr [])])⟩ []
        60).result.skipReason = some .emptyObs ∧
    main fixedP ⟨200, "j", some (.obj [("observations",
        .arr [.obj [], .obj [("a", .num 1)]])])⟩ [] 60 =
      main fixedP ⟨200, "j", some (.obj [("observations", .arr [.obj []])])⟩
        [] 60 := by
  refine ⟨(c4_classification fixedP ⟨204, "", none⟩ [] 60).1 rfl,
    (c4_classification fixedP ⟨500, "oops", none⟩ [] 60).2.1 (by decide)
      (by decide),
    (c4_classification fixedP ⟨200, "not json", none⟩ [] 60).2.2.1 rfl
      (Or.inr rfl),
    (c4_classification fixedP ⟨200, "null", some .null⟩ [] 60).2.2.2.1 rfl
      (by decide) .null rfl rfl,
    (c4_classification fixedP ⟨200, "j", some (.obj [("observations",
        .arr [])])⟩ [] 60).2.2.2.2.1 [("observations", .arr [])] rfl
      (by decide) rfl (List.cons_ne_nil _ _) rfl,
    (c4_classification fixedP ⟨200, "j", some (.obj [("observations",
        .arr [.obj [], .obj [("a", .num 1)]])])⟩ [] 60).2.2.2.2.2
      [("observations", .arr [.obj [], .obj [("a", .num 1)]])] (.obj [])
      [.obj [("a", .num 1)]] rfl (by decide) rfl rfl⟩

/-- C2: a run that appends does so only after its timestamp passed the
duplicate guard against the last instant read from the log at the start of
the run (absent, or strictly older by at least `W` seconds); consequently a
well-formed log with a non-decreasing timestamp column keeps both
properties across one run and across any sequence of runs of the
pipeline. -/
theorem c2_monotone (P : String → Option (Tm × Option Int))
    (r : FetchResult) (values : List (List String)) (W : Int) :
    ((main P r values W).result.isAppended = true →
      ∃ row a, (main P r values W).result = .appended row ∧
        a.off = tzOffsetSec ∧
        row.headD .null = .str (formatTm a.f) ∧
        (get_last_logged_timestamp P values = none ∨
         ∃ last, get_last_logged_timestamp P values = some last ∧
           instantOf last < instantOf a ∧
           W ≤ instantOf a - instantOf last)) ∧
    (logInv values → logInv (main fixedP r values W).sheet) ∧
    (∀ rs : List FetchResult, logInv values →
      logInv (rs.foldl (fun vs q => (main fixedP q vs W).sheet) values)) := by
  refine ⟨?_, fun h => logInv_preserved r values W h, ?_⟩
  · intro happ
    rcases main_cases P r values W with ⟨hfalse, _⟩ |
      ⟨row, v, a, rest, hres, hparse, hrow, hsheet, hguard⟩
    · rw [happ] at hfalse
      cases hfalse
    · refine ⟨row, astimezoneTZ a, hres, rfl, ?_, ?_⟩
      · rw [hrow]
        rfl
      · rw [dupGuard_none_iff] at hguard
        rcases hguard with hn | ⟨l, hsome, hlt, hW⟩
        · left
          exact Option.map_eq_none'.mp hn
        · right
          rcases hmap : get_last_logged_timestamp P values with _ | last
          · rw [hmap] at hsome
            cases hsome
          · rw [hmap, Option.map_some', Option.some.injEq] at hsome
            subst hsome
            exact ⟨last, rfl, hlt, hW⟩
  · intro rs
    induction rs generalizing values with
    | nil => exact fun h => h
    | cons q qs ih =>
      intro h
      exact ih _ (logInv_preserved q values W h)

set_option maxRecDepth 10000 in
theorem c2_monotone_witness :
    (∃ row a,
      (main fixedP ⟨200, "x", some (.obj [("observations", .arr [.obj
          [("obsTimeLocal", .str "2024-01-01 10:01:00"),
           ("winddir", .num 180)]])])⟩ [["Timestamp"]] 60).result =
        .appended row ∧
      a.off = tzOffsetSec ∧
      row.headD .null = .str (formatTm a.f) ∧
      (get_last_logged_timestamp fixedP [["Timestamp"]] = none ∨
       ∃ last, get_last_logged_timestamp fixedP [["Timestamp"]] = some last ∧
         instantOf last < instantOf a ∧
         60 ≤ instantOf a - instantOf last)) ∧
    logInv (main fixedP ⟨200, "x", some (.obj [("observations", .arr [.obj
        [("obsTimeLocal", .str "2024-01-01 10:01:00"),
         ("winddir", .num 180)]])])⟩ [["Timestamp"]] 60).sheet ∧
    logInv ([⟨200, "x", some (.obj [("observations", .arr [.obj
        [("obsTimeLocal", .str "2024-01-01 10:01:00"),
         ("winddir", .num 180)]])])⟩].foldl
      (fun vs q => (main fixedP q vs 60).sheet) [["Timestamp"]]) :=
  ⟨(c2_monotone fixedP ⟨200, "x", some (.obj [("observations", .arr [.obj
        [("obsTimeLocal", .str "2024-01-01 10:01:00"),
         ("winddir", .num 180)]])])⟩ [["Timestamp"]] 60).1 (by decide),
   (c2_monotone fixedP ⟨200, "x", some (.obj [("observations", .arr [.obj
        [("obsTimeLocal", .str "2024-01-01 10:01:00"),
         ("winddir", .num 180)]])])⟩ [["Timestamp"]] 60).2.1
     ⟨rfl, by simp [tsColSecs]⟩,
   (c2_monotone fixedP ⟨200, "x", some (.obj [("observations", .arr [.obj
        [("obsTimeLocal", .str "2024-01-01 10:01:00"),
         ("winddir", .num 180)]])])⟩ [["Timestamp"]] 60).2.2
     [⟨200, "x", some (.obj [("observations", .arr [.obj
        [("obsTimeLocal", .str "2024-01-01 10:01:00"),
         ("winddir", .num 180)]])])⟩] ⟨rfl, by simp [tsColSecs]⟩⟩

end Weather
